import Mathlib

/-!
Shallow embedding of the elizaOS/vercel-api registry-aggregation pipeline:
`src/lib/parse-registry.ts` (git-reference parsing, tag/npm version probes,
per-repository reconciliation) and `src/app/api/plugins/registry/route.ts`
(the 30-minute in-memory cache with stale fallback).

Upstream network responses are passed in explicitly as oracle values, and
JavaScript exceptions are modelled with `Except String`.  The external npm
`semver` library is modelled on the fragment the code exercises: strict
`major.minor.patch` version strings (with an optional leading `v` accepted
by `clean`) and the range forms `^x.y.z`, `~x.y.z`, `>=x.y.z` and bare
`x.y.z`; other range expressions are treated as the thrown-and-caught
invalid-range case.  String scanning is implemented structurally over
character lists so every definition evaluates inside the kernel.
-/

namespace Eliza

/-! ### Character-level string helpers -/

/-- JavaScript `String.prototype.split` with a single-character separator,
on the character list of the string (`"".split(x)` is `[""]`). -/
def splitOnChar (sep : Char) : List Char → List (List Char)
  | [] => [[]]
  | c :: rest =>
    let r := splitOnChar sep rest
    if c = sep then [] :: r
    else
      match r with
      | [] => [[c]]
      | g :: gs => (c :: g) :: gs

/-- Parse a non-empty all-digit character list as a natural number. -/
def digitsToNat? (cs : List Char) : Option Nat :=
  if cs ≠ [] && cs.all Char.isDigit then
    some (cs.foldl (fun acc c => acc * 10 + (c.toNat - 48)) 0)
  else none

/-- `String.prototype.startsWith`. -/
def strStartsWith (s p : String) : Bool := List.isPrefixOf p.data s.data

/-- `String.prototype.substring(n)` / `slice(n)` (drop `n` characters). -/
def strDrop (s : String) (n : Nat) : String := ⟨s.data.drop n⟩

def strOfChars (cs : List Char) : String := ⟨cs⟩

/-- JavaScript truthiness of a nullable string (`null`, `undefined` and the
empty string are falsy). -/
def jsTruthy (a : Option String) : Bool :=
  match a with
  | some s => s ≠ ("")
  | none => false

/-- JavaScript `a || b` for nullable strings. -/
def jsOrOpt (a b : Option String) : Option String :=
  match a with
  | some s => if s = ("") then b else some s
  | none => b

/-- JavaScript `a || b` where the fallback is a plain string. -/
def jsOrStr (a : Option String) (b : String) : String :=
  match a with
  | some s => if s = ("") then b else s
  | none => b

/-! ### The semver model (external `semver` library, on the fragment used) -/

structure SemVer where
  major : Nat
  minor : Nat
  patch : Nat
deriving DecidableEq, Repr

/-- Strict `major.minor.patch` version parsing (the semver grammar fragment
the registry data exercises; anything else is an invalid version). -/
def parseSemver (s : String) : Option SemVer :=
  match splitOnChar ('.') s.data with
  | [a, b, c] =>
    match digitsToNat? a, digitsToNat? b, digitsToNat? c with
    | some x, some y, some z => some ⟨x, y, z⟩
    | _, _, _ => none
  | _ => none

/-- Semantic-version precedence (`a ≤ b`). -/
def vle (a b : SemVer) : Bool :=
  decide (a.major < b.major ∨ (a.major = b.major ∧
    (a.minor < b.minor ∨ (a.minor = b.minor ∧ a.patch ≤ b.patch))))

/-- `vle` lifted to parse results, with unparseable strings at the bottom
(this junk extension is only ever exercised on parseable inputs, and makes
the comparator a total preorder). -/
def optLe : Option SemVer → Option SemVer → Bool
  | none, _ => true
  | some _, none => false
  | some a, some b => vle a b

/-- `semver.rcompare` as a "descending" before-relation: `a` sorts before
`b` when `a`'s version is at least `b`'s. -/
def rcompareB (a b : String) : Bool := optLe (parseSemver b) (parseSemver a)

def rc (a b : String) : Prop := rcompareB a b = true

instance : DecidableRel rc := fun a b => instDecidableEqBool (rcompareB a b) true

/-- `versions.sort(semver.rcompare)` on parseable inputs: a sorted
permutation in descending semver order (modelled as an insertion sort by
the comparator). -/
def sortVersionsDesc (vs : List String) : List String := vs.insertionSort rc

/-- `semver.clean`: strip an optional leading `v`, accept a strict
`major.minor.patch` triple, return the cleaned string, else `null`. -/
def semverClean (s : String) : Option String :=
  let t := if strStartsWith s ("v") then strDrop s 1 else s
  match parseSemver t with
  | some _ => some t
  | none => none

/-- `semver.major(v) === m`, on version strings that are known to parse
(the tag prober only applies it to cleaned strings). -/
def isMajorB (m : Nat) (v : String) : Bool :=
  (parseSemver v).map SemVer.major == some m

/-- `sorted.find((v) => semver.major(v) === m)` where `semver.major` throws
a `TypeError` on a non-parseable version string (there is no try/catch in
`inspectNpm`, so the thrown error escapes as `Except.error`). -/
def findMajorE (m : Nat) : List String → Except String (Option String)
  | [] => .ok none
  | v :: rest =>
    match parseSemver v with
    | none => .error (("Invalid Version: ") ++ v)
    | some sv => if sv.major = m then .ok (some v) else findMajorE m rest

/-- `versions.sort(semver.rcompare)` on raw strings: with at most one
element the comparator is never invoked; otherwise every element takes part
in at least one comparison and `semver.rcompare` throws on a non-parseable
operand, so the sort throws exactly when some element fails to parse. -/
def sortVersionsE (vs : List String) : Except String (List String) :=
  if vs.length ≤ 1 then .ok vs
  else if vs.all (fun v => (parseSemver v).isSome) then .ok (sortVersionsDesc vs)
  else .error ("Invalid Version")

/-- `semver.minVersion` on the range fragment the registry uses
(`>=x.y.z`, `^x.y.z`, `~x.y.z`, bare `x.y.z`); any other expression is the
thrown-and-caught invalid-range case, i.e. `none`. -/
def rangeMin (r : String) : Option SemVer :=
  if strStartsWith r (">=") then parseSemver (strDrop r 2)
  else if strStartsWith r ("^") then parseSemver (strDrop r 1)
  else if strStartsWith r ("~") then parseSemver (strDrop r 1)
  else parseSemver r

/-- `semver.minVersion(range)?.major` with exceptions caught. -/
def rangeMinMajor (r : String) : Option Nat := (rangeMin r).map SemVer.major

/-- Caret-range upper bound: same major, or same minor (major 0), or exact
(major and minor 0). -/
def caretCompat (lo v : SemVer) : Bool :=
  if 0 < lo.major then v.major == lo.major
  else if 0 < lo.minor then v.major == 0 && v.minor == lo.minor
  else v.major == 0 && v.minor == 0 && v.patch == lo.patch

/-- `semver.satisfies` on the same range fragment. -/
def rangeSatisfies (r v : String) : Bool :=
  match parseSemver v with
  | none => false
  | some sv =>
    if strStartsWith r (">=") then
      match parseSemver (strDrop r 2) with
      | some lo => vle lo sv
      | none => false
    else if strStartsWith r ("^") then
      match parseSemver (strDrop r 1) with
      | some lo => vle lo sv && caretCompat lo sv
      | none => false
    else if strStartsWith r ("~") then
      match parseSemver (strDrop r 1) with
      | some lo => vle lo sv && lo.major == sv.major && lo.minor == sv.minor
      | none => false
    else
      match parseSemver r with
      | some lo => lo == sv
      | none => false

/-! ### Data model (src/lib/types.ts) -/

structure SupportFlags where
  v0 : Bool
  v1 : Bool
deriving DecidableEq, Repr

structure NpmInfo where
  repo : Option String
  v0 : Option String
  v1 : Option String
deriving DecidableEq, Repr

structure BranchVer where
  version : Option String
  branch : Option String
deriving DecidableEq, Repr

structure GitInfo where
  repo : String
  v0 : BranchVer
  v1 : BranchVer
deriving DecidableEq, Repr

structure VersionInfo where
  git : Option GitInfo
  npm : Option NpmInfo
  supports : SupportFlags
deriving DecidableEq, Repr

structure CachedRegistryData where
  lastUpdatedAt : String
  registry : List (String × VersionInfo)
deriving DecidableEq, Repr

/-- The slice of npm-registry package metadata the code reads: the key set
of `meta.versions`, or `none` when the field is absent or falsy. -/
structure NpmMeta where
  versions : Option (List String)
deriving DecidableEq, Repr

structure TagSummary where
  repo : String
  v0 : Option String
  v1 : Option String
deriving DecidableEq, Repr

/-- `fetchPackageJSON` success payload: the manifest version and the
`@elizaos/core` range from `dependencies` or `peerDependencies`. -/
structure Pkg where
  version : Option String
  coreRange : Option String
deriving DecidableEq, Repr

/-! ### src/lib/parse-registry.ts -/

/-- `parseGitRef` (lines 26–32): require the `github:` provider, split the
rest on `/`, and require truthy owner and repo segments. -/
def parseGitRef (gitRef : String) : Option (String × String) :=
  if strStartsWith gitRef ("github:") then
    let repoPath := strDrop gitRef 7
    match splitOnChar ('/') repoPath.data with
    | owner :: repo :: _ =>
      if owner = [] ∨ repo = [] then none
      else some (strOfChars owner, strOfChars repo)
    | _ => none
  else none

/-- `guessNpmName` (lines 113–115): rewrite a leading `@elizaos-plugins/`
scope to `@elizaos/`. -/
def guessNpmName (jsName : String) : String :=
  if strStartsWith jsName ("@elizaos-plugins/") then ("@elizaos/") ++ strDrop jsName 17
  else jsName

/-- `getLatestGitTags` (lines 69–89): the whole body sits in a try/catch,
so a failed tag listing (`none`) degrades to the null sentinel; on success
the tag names are cleaned, non-parseable ones discarded, the rest sorted in
descending semver order, and the first entry of each major line selected. -/
def getLatestGitTags (owner repo : String) (tagsFetch : Option (List String)) : TagSummary :=
  match tagsFetch with
  | none => { repo := owner ++ ("/") ++ repo, v0 := none, v1 := none }
  | some tagNames =>
    let versions := tagNames.filterMap semverClean
    let sorted := sortVersionsDesc versions
    { repo := owner ++ ("/") ++ repo
      v0 := sorted.find? (isMajorB 0)
      v1 := sorted.find? (isMajorB 1) }

/-- `inspectNpm` (lines 92–110): a failed metadata fetch or a missing
`versions` field degrades to the undefined sentinel, but the subsequent
`sort(semver.rcompare)` and the two `find((v) => semver.major(v) === …)`
calls run with no try/catch and so throw on non-parseable version keys. -/
def inspectNpm (pkgName : String) (npmFetch : Option NpmMeta) : Except String NpmInfo :=
  match npmFetch with
  | none => .ok { repo := some pkgName, v0 := none, v1 := none }
  | some meta =>
    match meta.versions with
    | none => .ok { repo := some pkgName, v0 := none, v1 := none }
    | some versions =>
      match sortVersionsE versions with
      | .error e => .error e
      | .ok sorted =>
        match findMajorE 0 sorted with
        | .error e => .error e
        | .ok v0 =>
          match findMajorE 1 sorted with
          | .error e => .error e
          | .ok v1 => .ok { repo := some pkgName, v0 := v0, v1 := v1 }

/-- The workspace normalization applied to a manifest core range
(lines 162–167 / 186–191): strip a leading `workspace:`; a bare remaining
wildcard `*`, `^` or `~` becomes `>=0.0.0`. -/
def normalizeCoreRange (r : String) : String :=
  if strStartsWith r ("workspace:") then
    let rest := strDrop r 10
    if rest = ("*") ∨ rest = ("^") ∨ rest = ("~") then (">=0.0.0") else rest
  else r

/-- Major-version inference for one manifest (lines 161–177 / 184–201):
normalize the range, skip falsy or `"latest"` ranges, then
`semver.minVersion(range)?.major` with the invalid-range exception caught. -/
def pkgCoreMajor (coreRange : Option String) : Option Nat :=
  match coreRange with
  | none => none
  | some r0 =>
    let r := normalizeCoreRange r0
    if r ≠ ("") ∧ r ≠ ("latest") then rangeMinMajor r else none

/-- Candidate branches (line 143): the fixed priority list filtered by the
branches the repository actually has. -/
def branchCandidatesOf (branches : List String) : List String :=
  [("main"), ("master"), ("0.x"), ("1.x")].filter (fun b => branches.contains b)

/-- One iteration of the branch-support loop (lines 154–179): a fulfilled
non-null manifest whose inferred major is 0 (resp. 1) overwrites the
recorded v0-support (resp. v1-support) branch. -/
def sbStep (acc : Option String × Option String) (it : String × Option Pkg) :
    Option String × Option String :=
  match it.2 with
  | none => acc
  | some pkg =>
    match pkgCoreMajor pkg.coreRange with
    | some 0 => (some it.1, acc.2)
    | some 1 => (acc.1, some it.1)
    | _ => acc

/-- The branch-support loop over (candidate branch, manifest result) pairs,
starting from `{v0: null, v1: null}`. -/
def supportedBranchesLoop (items : List (String × Option Pkg)) :
    Option String × Option String :=
  items.foldl sbStep (none, none)

/-- One iteration of the support-flag loop (lines 184–202). -/
def supportsStep (acc : Bool × Bool) (pkg : Pkg) : Bool × Bool :=
  let major := pkgCoreMajor pkg.coreRange
  (acc.1 || major == some 0, acc.2 || major == some 1)

def supportsLoop (pkgs : List Pkg) : Bool × Bool :=
  pkgs.foldl supportsStep (false, false)

/-- The upstream responses one `processRepo` call can observe: `branches`
is the already-degraded `getGitHubBranches` result (its catch returns `[]`),
`manifest` the per-branch `fetchPackageJSON` result (its own try/catch
yields `none` on any failure, so `Promise.allSettled` only ever sees
fulfilled promises), `tags` and `npm` the raw fetch outcomes consumed by
`getLatestGitTags` and `inspectNpm`. -/
structure RepoOracle where
  branches : List String
  manifest : String → Option Pkg
  tags : Option (List String)
  npm : Option NpmMeta

/-- The tail of `processRepo` after the `await Promise.all([tagsPromise,
npmPromise])` join (lines 142–240): branch candidates, the two manifest
loops, npm-based support flags, the merged git block, and the final OR with
the recorded support branches. -/
def assembleInfo (owner repo : String) (o : RepoOracle) (npmInfo : NpmInfo) : VersionInfo :=
  let branchCandidates := branchCandidatesOf o.branches
  let pkgResults := branchCandidates.map o.manifest
  let pkgs := pkgResults.filterMap id
  let supportedBranches := supportedBranchesLoop (branchCandidates.zip pkgResults)
  let s := supportsLoop pkgs
  let gitTagInfo := getLatestGitTags owner repo o.tags
  let supportsV0 := s.1 || jsTruthy npmInfo.v0
  let supportsV1 := s.2 || jsTruthy npmInfo.v1
  { git := some
      { repo := jsOrStr (some gitTagInfo.repo) (jsOrStr npmInfo.repo (owner ++ ("/") ++ repo))
        v0 := { version := jsOrOpt gitTagInfo.v0 (jsOrOpt npmInfo.v0 none)
                branch := supportedBranches.1 }
        v1 := { version := jsOrOpt gitTagInfo.v1 (jsOrOpt npmInfo.v1 none)
                branch := supportedBranches.2 } }
    npm := some npmInfo
    supports := { v0 := supportsV0 || jsTruthy supportedBranches.1
                  v1 := supportsV1 || jsTruthy supportedBranches.2 } }

/-- `processRepo` (lines 118–241): an unparseable git reference
short-circuits to the empty verdict; otherwise the branch/tag/npm probes
run and the verdict is assembled.  The only sub-computation that can throw
is `inspectNpm`, whose rejection surfaces at the `Promise.all` join. -/
def processRepo (npmId gitRef : String) (o : RepoOracle) :
    Except String (String × VersionInfo) :=
  match parseGitRef gitRef with
  | none =>
    .ok (npmId,
      { git := none
        npm := some { repo := none, v0 := none, v1 := none }
        supports := { v0 := false, v1 := false } })
  | some (owner, repo) =>
    (inspectNpm (guessNpmName npmId) o.npm).map
      (fun npmInfo => (npmId, assembleInfo owner repo o npmInfo))

/-- The upstream operations `processRepo` performs, in source order:
none when the git reference fails to parse; otherwise the branch listing,
the tag listing and the npm metadata fetch, plus one `getContent` manifest
fetch per candidate branch. -/
def processRepoCalls (gitRef : String) (o : RepoOracle) : List String :=
  match parseGitRef gitRef with
  | none => []
  | some _ =>
    [("listBranches"), ("listTags"), ("npmRegistryFetch")] ++
      (branchCandidatesOf o.branches).map (fun b => ("getContent:") ++ b)

/-- `parseRegistry` (lines 244–263): a failed index fetch degrades to `{}`
(`|| {}` after `safeFetchJSON`, whose record filter also drops falsy keys),
every entry is processed, and `Promise.all` propagates any per-repo
rejection. -/
def parseRegistry (indexFetch : Option (List (String × String)))
    (oracle : String → String → RepoOracle) (nowIso : String) :
    Except String CachedRegistryData := do
  let registry : List (String × String) :=
    match indexFetch with
    | none => []
    | some entries => entries.filter (fun e => e.1 ≠ (""))
  let results ← registry.mapM (fun e => processRepo e.1 e.2 (oracle e.1 e.2))
  .ok { lastUpdatedAt := nowIso, registry := results }

/-! ### src/app/api/plugins/registry/route.ts -/

/-- `CACHE_DURATION` (30 minutes in milliseconds). -/
def cacheDurationMs : Nat := 30 * 60 * 1000

structure CacheState where
  cachedData : Option CachedRegistryData
  cacheTimestamp : Nat
deriving DecidableEq, Repr

inductive GetResponse where
  | success (data : CachedRegistryData)
  | configError (msg : String)
  | staleWithWarning (data : CachedRegistryData) (warning : String) (errorMsg : String)
  | totalFailure (errorMsg message : String)
deriving DecidableEq, Repr

/-- The cache-miss path of `GET`: the token check, then the aggregation
raced against the 25-second timer (its outcome is the `aggregation`
argument; the timer firing is `.error "Registry parsing timeout"`), the
cache update on success, and the catch block with stale fallback. -/
def registryGETMiss (st : CacheState) (now : Nat) (token : Option String)
    (aggregation : Except String CachedRegistryData) :
    GetResponse × CacheState × Bool :=
  match token with
  | none => (.configError ("GitHub token not configured on server"), st, false)
  | some _ =>
    match aggregation with
    | .ok result =>
      (.success result, { cachedData := some result, cacheTimestamp := now }, true)
    | .error e =>
      match st.cachedData with
      | some d => (.staleWithWarning d ("Data may be stale due to parsing error") e, st, true)
      | none => (.totalFailure ("Failed to parse registry") e, st, true)

/-- One `GET` request (lines 10–93).  `now` is `Date.now()` at entry,
`token` the first truthy of `GITHUB_TOKEN`/`GH_TOKEN`, `aggregation` the
raced `parseRegistry` outcome.  Returns the response, the cache state after
the request, and whether an aggregation cycle (with its upstream fetches)
was run. -/
def registryGET (st : CacheState) (now : Nat) (token : Option String)
    (aggregation : Except String CachedRegistryData) :
    GetResponse × CacheState × Bool :=
  match st.cachedData with
  | some d =>
    if now - st.cacheTimestamp < cacheDurationMs then (.success d, st, false)
    else registryGETMiss st now token aggregation
  | none => registryGETMiss st now token aggregation

/-! ### Specification-side predicates -/

/-- Spec §4.1/§8: `res` is an entry of `pool` with major component `m` that
is maximal under semver ordering among such entries, or `none` when no
entry of `pool` has major `m`. -/
def isMaxOfMajor (m : Nat) (pool : List String) (res : Option String) : Bool :=
  match res with
  | none => pool.all (fun v => !(isMajorB m v))
  | some r =>
    pool.contains r && isMajorB m r &&
      pool.all (fun v => !(isMajorB m v) || optLe (parseSemver v) (parseSemver r))

/-- A candidate branch of `o` whose fetched manifest's normalized core
range resolves to major `m` (the manifest-inspection support signal). -/
def manifestSignal (o : RepoOracle) (m : Nat) : Prop :=
  ∃ br pkg, br ∈ branchCandidatesOf o.branches ∧ o.manifest br = some pkg ∧
    pkgCoreMajor pkg.coreRange = some m

/-- The per-item predicate of the branch-support loop: the manifest result
is non-null and its inferred major is `m`. -/
def itemMajorB (m : Nat) (it : String × Option Pkg) : Bool :=
  match it.2 with
  | some pkg => pkgCoreMajor pkg.coreRange == some m
  | none => false

/-! ### Order lemmas for the semver comparator -/

theorem vle_iff (a b : SemVer) :
    vle a b = true ↔
      a.major < b.major ∨ (a.major = b.major ∧
        (a.minor < b.minor ∨ (a.minor = b.minor ∧ a.patch ≤ b.patch))) := by
  simp [vle]

theorem vle_total (a b : SemVer) : vle a b = true ∨ vle b a = true := by
  rw [vle_iff, vle_iff]; omega

theorem vle_trans {a b c : SemVer} (h1 : vle a b = true) (h2 : vle b c = true) :
    vle a c = true := by
  rw [vle_iff] at h1 h2 ⊢; omega

theorem optLe_total (a b : Option SemVer) : optLe a b = true ∨ optLe b a = true := by
  cases a with
  | none => left; rfl
  | some x =>
    cases b with
    | none => right; rfl
    | some y => exact vle_total x y

theorem optLe_trans {a b c : Option SemVer} (h1 : optLe a b = true)
    (h2 : optLe b c = true) : optLe a c = true := by
  cases a with
  | none => rfl
  | some x =>
    cases b with
    | none => exact absurd h1 (by simp [optLe])
    | some y =>
      cases c with
      | none => exact absurd h2 (by simp [optLe])
      | some z => exact vle_trans h1 h2

instance : IsTotal String rc :=
  ⟨fun a b => (optLe_total (parseSemver b) (parseSemver a)).imp id id⟩

instance : IsTrans String rc :=
  ⟨fun _ _ _ h1 h2 => optLe_trans h2 h1⟩

theorem optLe_refl (a : Option SemVer) : optLe a a = true := by
  cases a with
  | none => rfl
  | some x => show vle x x = true; rw [vle_iff]; omega

/-- In a list sorted by the descending comparator, the first entry matching
a predicate dominates every matching entry. -/
theorem find?_sorted_max {l : List String} (hs : l.Sorted rc) {m : Nat} {r : String}
    (h : l.find? (isMajorB m) = some r) :
    ∀ v ∈ l, isMajorB m v = true → optLe (parseSemver v) (parseSemver r) = true := by
  induction l with
  | nil => simp at h
  | cons x xs ih =>
    rw [List.sorted_cons] at hs
    by_cases hx : isMajorB m x = true
    · simp only [List.find?_cons, hx] at h
      cases h
      intro v hv _
      rcases List.mem_cons.mp hv with hveq | hvmem
      · subst hveq; exact optLe_refl _
      · exact hs.1 v hvmem
    · rw [Bool.not_eq_true] at hx
      simp only [List.find?_cons, hx] at h
      intro v hv hvm
      rcases List.mem_cons.mp hv with hveq | hvmem
      · subst hveq; rw [hvm] at hx; cases hx
      · exact ih hs.2 h v hvmem hvm

theorem contains_of_mem {l : List String} {a : String} (h : a ∈ l) :
    l.contains a = true := List.elem_iff.mpr h

/-- The version-set resolution: sorting any pool with the descending semver
comparator and taking the first entry of major line `m` yields the maximal
entry of that major line (or `none` when the line is empty). -/
theorem resolve_isMax (m : Nat) (vs : List String) :
    isMaxOfMajor m vs ((sortVersionsDesc vs).find? (isMajorB m)) = true := by
  have hperm : (sortVersionsDesc vs).Perm vs := List.perm_insertionSort rc vs
  have hsorted : (sortVersionsDesc vs).Sorted rc := List.sorted_insertionSort rc vs
  cases hf : (sortVersionsDesc vs).find? (isMajorB m) with
  | none =>
    rw [List.find?_eq_none] at hf
    simp only [isMaxOfMajor, List.all_eq_true]
    intro v hv
    simp [hf v (hperm.mem_iff.mpr hv)]
  | some r =>
    have hr : isMajorB m r = true := List.find?_some hf
    have hmem : r ∈ vs := hperm.subset (List.mem_of_find?_eq_some hf)
    have hmax := find?_sorted_max hsorted hf
    simp only [isMaxOfMajor, Bool.and_eq_true, List.all_eq_true]
    refine ⟨⟨contains_of_mem hmem, hr⟩, fun v hv => ?_⟩
    by_cases hvm : isMajorB m v = true
    · simp [hmax v (hperm.mem_iff.mpr hv) hvm]
    · simp [hvm]

/-! ### The throwing npm resolution agrees with the total one on parseable pools -/

theorem findMajorE_ok (m : Nat) (vs : List String)
    (hall : ∀ v ∈ vs, (parseSemver v).isSome = true) :
    findMajorE m vs = .ok (vs.find? (isMajorB m)) := by
  induction vs with
  | nil => rfl
  | cons v rest ih =>
    have hv : (parseSemver v).isSome = true := hall v (List.mem_cons_self v rest)
    cases hp : parseSemver v with
    | none => rw [hp] at hv; cases hv
    | some sv =>
      simp only [findMajorE, hp, List.find?_cons]
      by_cases hm : sv.major = m
      · have : isMajorB m v = true := by simp [isMajorB, hp, hm]
        rw [if_pos hm, this]
      · have : isMajorB m v = false := by simp [isMajorB, hp, hm]
        rw [if_neg hm, this, ih (fun x hx => hall x (List.mem_cons_of_mem v hx))]

theorem sortVersionsE_ok (vs : List String)
    (hall : vs.all (fun v => (parseSemver v).isSome) = true) :
    sortVersionsE vs = .ok (sortVersionsDesc vs) := by
  match vs with
  | [] => rfl
  | [v] => rfl
  | a :: b :: rest =>
    have hlen : ¬ ((a :: b :: rest).length ≤ 1) := by simp
    rw [sortVersionsE, if_neg hlen, if_pos hall]

theorem sorted_all_parseable {vs : List String}
    (hall : ∀ v ∈ vs, (parseSemver v).isSome = true) :
    ∀ v ∈ sortVersionsDesc vs, (parseSemver v).isSome = true :=
  fun v hv => hall v ((List.perm_insertionSort rc vs).subset hv)

/-! ### Loop characterizations -/

theorem getLast?_cons_or {α : Type} (a : α) (l : List α) :
    (a :: l).getLast? = l.getLast?.or (some a) := by
  induction l generalizing a with
  | nil => rfl
  | cons b bs ih =>
    rw [List.getLast?_cons_cons, ih b]
    cases hbs : bs.getLast? with
    | none => rfl
    | some y => rfl

theorem sbStep_fst (acc : Option String × Option String) (it : String × Option Pkg) :
    (sbStep acc it).1 = if itemMajorB 0 it then some it.1 else acc.1 := by
  rcases it with ⟨br, res⟩
  cases res with
  | none => rfl
  | some pkg =>
    simp only [sbStep, itemMajorB]
    cases hm : pkgCoreMajor pkg.coreRange with
    | none => rfl
    | some n =>
      match n with
      | 0 => rfl
      | 1 => rfl
      | Nat.succ (Nat.succ k) => simp

theorem sbStep_snd (acc : Option String × Option String) (it : String × Option Pkg) :
    (sbStep acc it).2 = if itemMajorB 1 it then some it.1 else acc.2 := by
  rcases it with ⟨br, res⟩
  cases res with
  | none => rfl
  | some pkg =>
    simp only [sbStep, itemMajorB]
    cases hm : pkgCoreMajor pkg.coreRange with
    | none => rfl
    | some n =>
      match n with
      | 0 => rfl
      | 1 => rfl
      | Nat.succ (Nat.succ k) => simp

theorem foldl_sbStep_fst (items : List (String × Option Pkg)) :
    ∀ acc, (items.foldl sbStep acc).1 =
      (((items.filter (itemMajorB 0)).map Prod.fst).getLast?).or acc.1 := by
  induction items with
  | nil => intro acc; rfl
  | cons it rest ih =>
    intro acc
    rw [List.foldl_cons, ih]
    by_cases hm : itemMajorB 0 it = true
    · rw [List.filter_cons_of_pos hm, List.map_cons, getLast?_cons_or, Option.or_assoc]
      have h1 : (sbStep acc it).1 = some it.1 := by rw [sbStep_fst, if_pos hm]
      rw [h1]
      rfl
    · rw [List.filter_cons_of_neg hm]
      have h1 : (sbStep acc it).1 = acc.1 := by
        rw [sbStep_fst, if_neg (by simpa using hm)]
      rw [h1]

theorem foldl_sbStep_snd (items : List (String × Option Pkg)) :
    ∀ acc, (items.foldl sbStep acc).2 =
      (((items.filter (itemMajorB 1)).map Prod.fst).getLast?).or acc.2 := by
  induction items with
  | nil => intro acc; rfl
  | cons it rest ih =>
    intro acc
    rw [List.foldl_cons, ih]
    by_cases hm : itemMajorB 1 it = true
    · rw [List.filter_cons_of_pos hm, List.map_cons, getLast?_cons_or, Option.or_assoc]
      have h1 : (sbStep acc it).2 = some it.1 := by rw [sbStep_snd, if_pos hm]
      rw [h1]
      rfl
    · rw [List.filter_cons_of_neg hm]
      have h1 : (sbStep acc it).2 = acc.2 := by
        rw [sbStep_snd, if_neg (by simpa using hm)]
      rw [h1]

/-- The branch-support loop records, per major line, the last matching
candidate in priority order. -/
theorem supportedBranchesLoop_fst (items : List (String × Option Pkg)) :
    (supportedBranchesLoop items).1 =
      ((items.filter (itemMajorB 0)).map Prod.fst).getLast? := by
  rw [supportedBranchesLoop, foldl_sbStep_fst, Option.or_none]

theorem supportedBranchesLoop_snd (items : List (String × Option Pkg)) :
    (supportedBranchesLoop items).2 =
      ((items.filter (itemMajorB 1)).map Prod.fst).getLast? := by
  rw [supportedBranchesLoop, foldl_sbStep_snd, Option.or_none]

theorem foldl_supportsStep (pkgs : List Pkg) :
    ∀ acc, pkgs.foldl supportsStep acc =
      (acc.1 || pkgs.any (fun p => pkgCoreMajor p.coreRange == some 0),
       acc.2 || pkgs.any (fun p => pkgCoreMajor p.coreRange == some 1)) := by
  induction pkgs with
  | nil => intro acc; simp
  | cons p rest ih =>
    intro acc
    rw [List.foldl_cons, ih]
    simp [supportsStep, List.any_cons, Bool.or_assoc]

theorem supportsLoop_eq (pkgs : List Pkg) :
    supportsLoop pkgs =
      (pkgs.any (fun p => pkgCoreMajor p.coreRange == some 0),
       pkgs.any (fun p => pkgCoreMajor p.coreRange == some 1)) := by
  rw [supportsLoop, foldl_supportsStep]
  rfl

/-! ### Bridging the two manifest loops to the manifest-signal predicate -/

theorem zip_map_self {α β : Type} (l : List α) (f : α → β) :
    l.zip (l.map f) = l.map (fun b => (b, f b)) := by
  have h := List.zip_map' id f l
  rwa [List.map_id] at h

theorem itemMajorB_pair (m : Nat) (br : String) (res : Option Pkg) :
    itemMajorB m (br, res) = true ↔
      ∃ pkg, res = some pkg ∧ pkgCoreMajor pkg.coreRange = some m := by
  cases res with
  | none => simp [itemMajorB]
  | some pkg => simp [itemMajorB]

theorem manifestSignal_iff_item (o : RepoOracle) (m : Nat) :
    manifestSignal o m ↔
      ∃ it ∈ (branchCandidatesOf o.branches).map (fun b => (b, o.manifest b)),
        itemMajorB m it = true := by
  constructor
  · rintro ⟨br, pkg, hbr, hman, hmaj⟩
    refine ⟨(br, o.manifest br), List.mem_map.mpr ⟨br, hbr, rfl⟩, ?_⟩
    rw [itemMajorB_pair]
    exact ⟨pkg, hman, hmaj⟩
  · rintro ⟨it, hit, hmaj⟩
    rcases List.mem_map.mp hit with ⟨br, hbr, rfl⟩
    rcases (itemMajorB_pair m br (o.manifest br)).mp hmaj with ⟨pkg, hman, hm⟩
    exact ⟨br, pkg, hbr, hman, hm⟩

theorem manifestSignal_iff_pkgs (o : RepoOracle) (m : Nat) :
    manifestSignal o m ↔
      (((branchCandidatesOf o.branches).map o.manifest).filterMap id).any
        (fun p => pkgCoreMajor p.coreRange == some m) = true := by
  rw [List.any_eq_true]
  constructor
  · rintro ⟨br, pkg, hbr, hman, hmaj⟩
    refine ⟨pkg, ?_, by simp [hmaj]⟩
    exact List.mem_filterMap.mpr ⟨some pkg, List.mem_map.mpr ⟨br, hbr, hman⟩, rfl⟩
  · rintro ⟨pkg, hmem, hmaj⟩
    rcases List.mem_filterMap.mp hmem with ⟨res, hres, hid⟩
    rcases List.mem_map.mp hres with ⟨br, hbr, hbrres⟩
    refine ⟨br, pkg, hbr, ?_, by simpa using hmaj⟩
    rw [hbrres]
    exact hid

theorem mem_candidates_ne_empty {branches : List String} {b : String}
    (hb : b ∈ branchCandidatesOf branches) : b ≠ ("") := by
  have hfix : b ∈ [("main"), ("master"), ("0.x"), ("1.x")] :=
    (List.mem_filter.mp hb).1
  simp only [List.mem_cons, List.not_mem_nil, or_false] at hfix
  rcases hfix with h | h | h | h <;> subst h <;> decide

/-- In the zipped item list, every recorded first component is a candidate
branch. -/
theorem items_fst_mem {o : RepoOracle} {m : Nat} {b : String}
    (hb : b ∈ (((branchCandidatesOf o.branches).map (fun br => (br, o.manifest br))).filter
        (itemMajorB m)).map Prod.fst) :
    b ∈ branchCandidatesOf o.branches := by
  rcases List.mem_map.mp hb with ⟨it, hit, rfl⟩
  rcases List.mem_map.mp (List.mem_filter.mp hit).1 with ⟨br, hbr, rfl⟩
  exact hbr

theorem getLast?_mem_of_eq_some {α : Type} {l : List α} {a : α}
    (h : l.getLast? = some a) : a ∈ l := by
  induction l with
  | nil => cases h
  | cons x xs ih =>
    rw [getLast?_cons_or] at h
    cases hx : xs.getLast? with
    | none => rw [hx] at h; cases h; exact List.mem_cons_self _ _
    | some y =>
      rw [hx] at h
      cases h
      exact List.mem_cons_of_mem _ (ih hx)

theorem getLast?_eq_none_iff {α : Type} {l : List α} :
    l.getLast? = none ↔ l = [] := by
  cases l with
  | nil => simp
  | cons x xs =>
    rw [getLast?_cons_or]
    cases hx : xs.getLast? with
    | none => simp
    | some y => simp

/-- The recorded support branch for a major line is truthy exactly when
some candidate branch's manifest yields that major (the recorded value is a
candidate branch name, hence never the empty string). -/
theorem jsTruthy_supportedBranches (o : RepoOracle) (m : Nat) :
    jsTruthy (((((branchCandidatesOf o.branches).map
        (fun br => (br, o.manifest br))).filter (itemMajorB m)).map Prod.fst).getLast?) =
        true ↔
      manifestSignal o m := by
  rw [manifestSignal_iff_item]
  cases hl : (((((branchCandidatesOf o.branches).map
      (fun br => (br, o.manifest br))).filter (itemMajorB m)).map Prod.fst)).getLast? with
  | none =>
    have hfil : (((branchCandidatesOf o.branches).map
        (fun br => (br, o.manifest br))).filter (itemMajorB m)) = [] :=
      List.map_eq_nil_iff.mp (getLast?_eq_none_iff.mp hl)
    simp only [jsTruthy]
    constructor
    · intro h; cases h
    · rintro ⟨it, hit, hmaj⟩
      have hmem : it ∈ (((branchCandidatesOf o.branches).map
          (fun br => (br, o.manifest br))).filter (itemMajorB m)) :=
        List.mem_filter.mpr ⟨hit, hmaj⟩
      rw [hfil] at hmem
      cases hmem
  | some b =>
    have hbmem := getLast?_mem_of_eq_some hl
    have hbne : b ≠ ("") := mem_candidates_ne_empty (items_fst_mem hbmem)
    rcases List.mem_map.mp hbmem with ⟨it, hit, rfl⟩
    have hit2 := List.mem_filter.mp hit
    simp only [jsTruthy]
    constructor
    · intro _; exact ⟨it, hit2.1, hit2.2⟩
    · intro _; simpa using hbne

theorem supportsLoop_fst_iff (o : RepoOracle) :
    (supportsLoop (((branchCandidatesOf o.branches).map o.manifest).filterMap id)).1 = true ↔
      manifestSignal o 0 := by
  rw [supportsLoop_eq]
  exact (manifestSignal_iff_pkgs o 0).symm

theorem supportsLoop_snd_iff (o : RepoOracle) :
    (supportsLoop (((branchCandidatesOf o.branches).map o.manifest).filterMap id)).2 = true ↔
      manifestSignal o 1 := by
  rw [supportsLoop_eq]
  exact (manifestSignal_iff_pkgs o 1).symm

theorem sb_truthy_fst_iff (o : RepoOracle) :
    jsTruthy (supportedBranchesLoop ((branchCandidatesOf o.branches).zip
        ((branchCandidatesOf o.branches).map o.manifest))).1 = true ↔
      manifestSignal o 0 := by
  rw [zip_map_self, supportedBranchesLoop_fst]
  exact jsTruthy_supportedBranches o 0

theorem sb_truthy_snd_iff (o : RepoOracle) :
    jsTruthy (supportedBranchesLoop ((branchCandidatesOf o.branches).zip
        ((branchCandidatesOf o.branches).map o.manifest))).2 = true ↔
      manifestSignal o 1 := by
  rw [zip_map_self, supportedBranchesLoop_snd]
  exact jsTruthy_supportedBranches o 1

theorem assembleInfo_supports_v0 (owner repo : String) (o : RepoOracle) (n : NpmInfo) :
    (assembleInfo owner repo o n).supports.v0 =
      (((supportsLoop (((branchCandidatesOf o.branches).map o.manifest).filterMap id)).1 ||
          jsTruthy n.v0) ||
        jsTruthy (supportedBranchesLoop ((branchCandidatesOf o.branches).zip
          ((branchCandidatesOf o.branches).map o.manifest))).1) := rfl

theorem assembleInfo_supports_v1 (owner repo : String) (o : RepoOracle) (n : NpmInfo) :
    (assembleInfo owner repo o n).supports.v1 =
      (((supportsLoop (((branchCandidatesOf o.branches).map o.manifest).filterMap id)).2 ||
          jsTruthy n.v1) ||
        jsTruthy (supportedBranchesLoop ((branchCandidatesOf o.branches).zip
          ((branchCandidatesOf o.branches).map o.manifest))).2) := rfl

/-! ### Claim theorems -/

/-- C9: the candidate branches are exactly the fixed priority list
`["main", "master", "0.x", "1.x"]` restricted to the branches the lister
returned, in that order; and for each major line the recorded support
branch is the last candidate in priority order whose fetched manifest's
normalized dependency range resolved to that major (`none` when no
candidate yielded it). -/
theorem claimC9 (o : RepoOracle) :
    (branchCandidatesOf o.branches).Sublist
        [("main"), ("master"), ("0.x"), ("1.x")] ∧
    (∀ b, b ∈ branchCandidatesOf o.branches ↔
      (b ∈ [("main"), ("master"), ("0.x"), ("1.x")] ∧ b ∈ o.branches)) ∧
    (supportedBranchesLoop ((branchCandidatesOf o.branches).zip
        ((branchCandidatesOf o.branches).map o.manifest))).1 =
      (((((branchCandidatesOf o.branches).zip
          ((branchCandidatesOf o.branches).map o.manifest)).filter
            (itemMajorB 0)).map Prod.fst)).getLast? ∧
    (supportedBranchesLoop ((branchCandidatesOf o.branches).zip
        ((branchCandidatesOf o.branches).map o.manifest))).2 =
      (((((branchCandidatesOf o.branches).zip
          ((branchCandidatesOf o.branches).map o.manifest)).filter
            (itemMajorB 1)).map Prod.fst)).getLast? := by
  refine ⟨List.filter_sublist _, fun b => ?_, supportedBranchesLoop_fst _,
    supportedBranchesLoop_snd _⟩
  rw [branchCandidatesOf, List.mem_filter, List.elem_iff]

/-- C8: for a malformed source-control reference (one `parseGitRef`
rejects: wrong provider, missing separator, or an empty owner or repo
segment), the reconciler returns the empty verdict — `supports` both
false, an all-null npm block, no git block — and performs no upstream
calls. -/
theorem claimC8 (npmId gitRef : String) (o : RepoOracle)
    (h : parseGitRef gitRef = none) :
    processRepo npmId gitRef o =
      .ok (npmId,
        { git := none
          npm := some { repo := none, v0 := none, v1 := none }
          supports := { v0 := false, v1 := false } }) ∧
    processRepoCalls gitRef o = [] := by
  constructor
  · simp only [processRepo, h]
  · simp only [processRepoCalls, h]

theorem claimC8_witness :
    parseGitRef ("npm:foo/bar") = none ∧
    (processRepo ("x") ("npm:foo/bar")
        { branches := [], manifest := fun _ => none, tags := none, npm := none } =
      .ok (("x"),
        { git := none
          npm := some { repo := none, v0 := none, v1 := none }
          supports := { v0 := false, v1 := false } }) ∧
    processRepoCalls ("npm:foo/bar")
        { branches := [], manifest := fun _ => none, tags := none, npm := none } = []) :=
  ⟨by decide, claimC8 ("x") ("npm:foo/bar")
    { branches := [], manifest := fun _ => none, tags := none, npm := none } (by decide)⟩

/-- C10: a range expression with the `workspace:` prefix is normalized by
stripping the prefix and mapping a bare `*`, `^` or `~` wildcard to
`>=0.0.0`, a range every parseable version satisfies (in particular
`0.0.1` and `5.0.0` satisfy the normalization of `workspace:*`); a
remaining expression equal to the literal `latest` yields no major-version
inference. -/
theorem claimC10 (r : String) (h : strStartsWith r ("workspace:") = true) :
    normalizeCoreRange r =
      (if strDrop r 10 = ("*") ∨ strDrop r 10 = ("^") ∨ strDrop r 10 = ("~")
        then (">=0.0.0") else strDrop r 10) ∧
    (∀ v sv, parseSemver v = some sv → rangeSatisfies (">=0.0.0") v = true) ∧
    rangeSatisfies (normalizeCoreRange ("workspace:*")) ("0.0.1") = true ∧
    rangeSatisfies (normalizeCoreRange ("workspace:*")) ("5.0.0") = true ∧
    pkgCoreMajor (some ("workspace:latest")) = none ∧
    pkgCoreMajor (some ("latest")) = none := by
  refine ⟨?_, ?_, by decide, by decide, by decide, by decide⟩
  · rw [normalizeCoreRange, if_pos h]
  · intro v sv hv
    have h2 : parseSemver (strDrop (">=0.0.0") 2) = some (⟨0, 0, 0⟩ : SemVer) := by decide
    have h3 : strStartsWith (">=0.0.0") (">=") = true := by decide
    simp only [rangeSatisfies, hv, h2, h3, if_true]
    rw [vle_iff]
    dsimp only
    omega

theorem claimC10_witness :
    strStartsWith ("workspace:*") ("workspace:") = true ∧
    normalizeCoreRange ("workspace:*") =
      (if strDrop ("workspace:*") 10 = ("*") ∨ strDrop ("workspace:*") 10 = ("^") ∨
          strDrop ("workspace:*") 10 = ("~")
        then (">=0.0.0") else strDrop ("workspace:*") 10) ∧
    rangeSatisfies (normalizeCoreRange ("workspace:*")) ("0.0.1") = true ∧
    pkgCoreMajor (some ("workspace:latest")) = none :=
  ⟨by decide, (claimC10 ("workspace:*") (by decide)).1,
    (claimC10 ("workspace:*") (by decide)).2.2.1,
    (claimC10 ("workspace:*") (by decide)).2.2.2.2.1⟩

/-- C2 counterexample: the package-index prober does not discard the
non-parseable entry `"garbage"` — the unguarded `sort(semver.rcompare)`
throws instead, so the resolution yields an error rather than the maximal
major-0 entry `"0.1.0"`. -/
theorem claimC2_counterexample :
    inspectNpm ("@elizaos/x") (some { versions := some [("0.1.0"), ("garbage")] }) =
      .error ("Invalid Version") ∧
    inspectNpm ("@elizaos/x") (some { versions := some [("0.1.0"), ("garbage")] }) ≠
      .ok { repo := some ("@elizaos/x"), v0 := some ("0.1.0"), v1 := none } := by
  have h : inspectNpm ("@elizaos/x") (some { versions := some [("0.1.0"), ("garbage")] }) =
      .error ("Invalid Version") := rfl
  refine ⟨h, ?_⟩
  rw [h]
  intro hc
  injection hc

/-- C2 (amended): the tag prober's resolution discards non-parseable
entries (via `semver.clean`) and selects, per major line, the maximal
cleaned entry of that line or `none`; the package-index prober satisfies
the same maximality property whenever every listed version string parses
(a non-parseable entry there raises an error instead of being discarded —
see the counterexample). -/
theorem claimC2 (owner repo name : String) (tags versions : List String)
    (hall : versions.all (fun v => (parseSemver v).isSome) = true) :
    isMaxOfMajor 0 (tags.filterMap semverClean)
      (getLatestGitTags owner repo (some tags)).v0 = true ∧
    isMaxOfMajor 1 (tags.filterMap semverClean)
      (getLatestGitTags owner repo (some tags)).v1 = true ∧
    inspectNpm name (some { versions := some versions }) =
      .ok { repo := some name
            v0 := (sortVersionsDesc versions).find? (isMajorB 0)
            v1 := (sortVersionsDesc versions).find? (isMajorB 1) } ∧
    isMaxOfMajor 0 versions ((sortVersionsDesc versions).find? (isMajorB 0)) = true ∧
    isMaxOfMajor 1 versions ((sortVersionsDesc versions).find? (isMajorB 1)) = true := by
  have hall2 : ∀ v ∈ versions, (parseSemver v).isSome = true := List.all_eq_true.mp hall
  have hs := sortVersionsE_ok versions hall
  have hf0 := findMajorE_ok 0 (sortVersionsDesc versions) (sorted_all_parseable hall2)
  have hf1 := findMajorE_ok 1 (sortVersionsDesc versions) (sorted_all_parseable hall2)
  refine ⟨resolve_isMax 0 (tags.filterMap semverClean),
    resolve_isMax 1 (tags.filterMap semverClean), ?_,
    resolve_isMax 0 versions, resolve_isMax 1 versions⟩
  simp only [inspectNpm, hs, hf0, hf1]

theorem claimC2_witness :
    isMaxOfMajor 0 (([("v1.2.0"), ("0.9.0"), ("junk")] : List String).filterMap semverClean)
      (getLatestGitTags ("a") ("b") (some [("v1.2.0"), ("0.9.0"), ("junk")])).v0 = true ∧
    inspectNpm ("@x") (some { versions := some [("0.9.0"), ("1.2.0")] }) =
      .ok { repo := some ("@x")
            v0 := (sortVersionsDesc [("0.9.0"), ("1.2.0")]).find? (isMajorB 0)
            v1 := (sortVersionsDesc [("0.9.0"), ("1.2.0")]).find? (isMajorB 1) } :=
  ⟨(claimC2 ("a") ("b") ("@x") [("v1.2.0"), ("0.9.0"), ("junk")]
      [("0.9.0"), ("1.2.0")] (by decide)).1,
   (claimC2 ("a") ("b") ("@x") [("v1.2.0"), ("0.9.0"), ("junk")]
      [("0.9.0"), ("1.2.0")] (by decide)).2.2.1⟩

/-- The oracle exhibiting the C3 failure: the npm registry responds with a
metadata document whose `versions` record carries the non-parseable key
`"garbage"`. -/
def badNpmOracle : RepoOracle :=
  { branches := [], manifest := fun _ => none, tags := none
    npm := some { versions := some [("0.1.0"), ("garbage")] } }

/-- C3 (code bug): with a well-formed reference and an npm metadata
response containing a malformed version key, the thrown
`semver.rcompare`/`semver.major` `TypeError` escapes `inspectNpm` and
therefore escapes the per-package reconciler, contradicting the
no-exception-escapes containment policy. -/
theorem claimC3 :
    processRepo ("@elizaos-plugins/plugin-x") ("github:o/r") badNpmOracle =
      .error ("Invalid Version") := rfl

/-- C1: whenever the reference parses and the reconciler returns a
verdict, `supports.v0` holds iff some candidate-branch manifest's
normalized core range resolves to major 0 or the package-index probe
returned a truthy (non-null, non-empty) v0 version — and likewise for
`supports.v1` with major 1. -/
theorem claimC1 (npmId gitRef : String) (o : RepoOracle) (pr : String × String)
    (info : VersionInfo) (hp : parseGitRef gitRef = some pr)
    (hok : processRepo npmId gitRef o = .ok (npmId, info)) :
    (info.supports.v0 = true ↔
      (manifestSignal o 0 ∨ ∃ n, info.npm = some n ∧ jsTruthy n.v0 = true)) ∧
    (info.supports.v1 = true ↔
      (manifestSignal o 1 ∨ ∃ n, info.npm = some n ∧ jsTruthy n.v1 = true)) := by
  rcases pr with ⟨owner, repo⟩
  cases hn : inspectNpm (guessNpmName npmId) o.npm with
  | error e =>
    simp only [processRepo, hp, hn, Except.map] at hok
    injection hok
  | ok npmInfo =>
    simp only [processRepo, hp, hn, Except.map] at hok
    injection hok with hpair
    injection hpair with hfst hsnd
    subst hsnd
    have hnpm : (assembleInfo owner repo o npmInfo).npm = some npmInfo := rfl
    constructor
    · rw [assembleInfo_supports_v0, hnpm]
      simp only [Bool.or_eq_true, supportsLoop_fst_iff, sb_truthy_fst_iff,
        Option.some.injEq]
      constructor
      · rintro ((hA | hN) | hB)
        · exact Or.inl hA
        · exact Or.inr ⟨npmInfo, rfl, hN⟩
        · exact Or.inl hB
      · rintro (hA | ⟨n, hn2, hN⟩)
        · exact Or.inl (Or.inl hA)
        · subst hn2; exact Or.inl (Or.inr hN)
    · rw [assembleInfo_supports_v1, hnpm]
      simp only [Bool.or_eq_true, supportsLoop_snd_iff, sb_truthy_snd_iff,
        Option.some.injEq]
      constructor
      · rintro ((hA | hN) | hB)
        · exact Or.inl hA
        · exact Or.inr ⟨npmInfo, rfl, hN⟩
        · exact Or.inl hB
      · rintro (hA | ⟨n, hn2, hN⟩)
        · exact Or.inl (Or.inl hA)
        · subst hn2; exact Or.inl (Or.inr hN)

/-- The oracle of the C1 witness: a repository with only a `main` branch
whose manifest declares the core range `^0.5.0`; tag and npm probes fail. -/
def c1Oracle : RepoOracle :=
  { branches := [("main")]
    manifest := fun b =>
      if b = ("main") then some { version := some ("1.0.0"), coreRange := some ("^0.5.0") }
      else none
    tags := none
    npm := none }

/-- The verdict `processRepo` produces on the C1 witness oracle. -/
def c1Info : VersionInfo :=
  { git := some { repo := ("a/b")
                  v0 := { version := none, branch := some ("main") }
                  v1 := { version := none, branch := none } }
    npm := some { repo := some ("p"), v0 := none, v1 := none }
    supports := { v0 := true, v1 := false } }

theorem claimC1_witness :
    (c1Info.supports.v0 = true ↔
      (manifestSignal c1Oracle 0 ∨ ∃ n, c1Info.npm = some n ∧ jsTruthy n.v0 = true)) ∧
    (c1Info.supports.v1 = true ↔
      (manifestSignal c1Oracle 1 ∨ ∃ n, c1Info.npm = some n ∧ jsTruthy n.v1 = true)) :=
  claimC1 ("p") ("github:a/b") c1Oracle (("a"), ("b")) c1Info (by decide) rfl

/-- C4: when a cached snapshot exists and the (stale-cache) aggregation
cycle throws, the read returns the previous snapshot's data augmented with
a non-empty warning and the error detail, and neither the cached snapshot
nor the cache timestamp is modified. -/
theorem claimC4 (st : CacheState) (d : CachedRegistryData) (now : Nat) (tk e : String)
    (hd : st.cachedData = some d)
    (hstale : ¬ (now - st.cacheTimestamp < cacheDurationMs)) :
    registryGET st now (some tk) (.error e) =
      (.staleWithWarning d ("Data may be stale due to parsing error") e, st, true) ∧
    ("Data may be stale due to parsing error" : String) ≠ ("") := by
  refine ⟨?_, by decide⟩
  simp only [registryGET, hd, if_neg hstale, registryGETMiss]

theorem claimC4_witness :
    registryGET
        { cachedData := some { lastUpdatedAt := ("t0"), registry := [] }, cacheTimestamp := 0 }
        cacheDurationMs (some ("tok")) (.error ("boom")) =
      (.staleWithWarning { lastUpdatedAt := ("t0"), registry := [] }
          ("Data may be stale due to parsing error") ("boom"),
        { cachedData := some { lastUpdatedAt := ("t0"), registry := [] }, cacheTimestamp := 0 },
        true) ∧
    ("Data may be stale due to parsing error" : String) ≠ ("") :=
  claimC4
    { cachedData := some { lastUpdatedAt := ("t0"), registry := [] }, cacheTimestamp := 0 }
    { lastUpdatedAt := ("t0"), registry := [] } cacheDurationMs ("tok") ("boom")
    rfl (by decide)

/-- C5 counterexample: a stale-cache read with no configured token runs no
aggregation at all (it returns a bare configuration error), so a read
arriving after the 30-minute window does not, in general, trigger a new
aggregation. -/
theorem claimC5_counterexample :
    (registryGET
        { cachedData := some { lastUpdatedAt := ("t0"), registry := [] }, cacheTimestamp := 0 }
        (cacheDurationMs + 1) none (.error ("x"))).2.2 = false ∧
    (registryGET
        { cachedData := some { lastUpdatedAt := ("t0"), registry := [] }, cacheTimestamp := 0 }
        (cacheDurationMs + 1) none (.error ("x"))).1 =
      .configError ("GitHub token not configured on server") := by
  exact ⟨rfl, rfl⟩

/-- C5 (amended): a read within 30 minutes of the cached snapshot returns
it unchanged with no aggregation and no cache mutation; a read after the
window triggers a new aggregation provided the bearer credential is
configured (with no credential the read returns a configuration error and
fetches nothing — see the counterexample). -/
theorem claimC5 (st : CacheState) (d : CachedRegistryData) (now : Nat)
    (token : Option String) (tk : String) (agg : Except String CachedRegistryData) :
    (st.cachedData = some d → now - st.cacheTimestamp < cacheDurationMs →
      registryGET st now token agg = (.success d, st, false)) ∧
    (¬ (now - st.cacheTimestamp < cacheDurationMs) →
      (registryGET st now (some tk) agg).2.2 = true) := by
  constructor
  · intro hd hfresh
    simp only [registryGET, hd, if_pos hfresh]
  · intro hstale
    have hmiss : (registryGETMiss st now (some tk) agg).2.2 = true := by
      cases agg with
      | ok r => rfl
      | error e =>
        cases hc : st.cachedData with
        | none => simp only [registryGETMiss, hc]
        | some d2 => simp only [registryGETMiss, hc]
    cases hc : st.cachedData with
    | none => simp only [registryGET, hc, hmiss]
    | some d2 => simp only [registryGET, hc, if_neg hstale, hmiss]

theorem claimC5_witness :
    registryGET
        { cachedData := some { lastUpdatedAt := ("t0"), registry := [] }, cacheTimestamp := 0 }
        0 (some ("tok")) (.error ("x")) =
      (.success { lastUpdatedAt := ("t0"), registry := [] },
        { cachedData := some { lastUpdatedAt := ("t0"), registry := [] }, cacheTimestamp := 0 },
        false) ∧
    (registryGET
        { cachedData := some { lastUpdatedAt := ("t0"), registry := [] }, cacheTimestamp := 0 }
        cacheDurationMs (some ("tok")) (.error ("x"))).2.2 = true :=
  ⟨(claimC5
      { cachedData := some { lastUpdatedAt := ("t0"), registry := [] }, cacheTimestamp := 0 }
      { lastUpdatedAt := ("t0"), registry := [] } 0 (some ("tok")) ("tok")
      (.error ("x"))).1 rfl (by decide),
   (claimC5
      { cachedData := some { lastUpdatedAt := ("t0"), registry := [] }, cacheTimestamp := 0 }
      { lastUpdatedAt := ("t0"), registry := [] } cacheDurationMs (some ("tok")) ("tok")
      (.error ("x"))).2 (by decide)⟩

/-- C6 counterexample: with a cached snapshot present and no configured
credential, a stale-cache read returns the bare configuration error — not
the previous snapshot annotated with a warning — so the stale-data
fallback does not cover the missing-credential failure mode. -/
theorem claimC6_counterexample :
    registryGET
        { cachedData := some { lastUpdatedAt := ("t0"), registry := [] }, cacheTimestamp := 0 }
        (cacheDurationMs + 1) none (.error ("Registry parsing timeout")) =
      (.configError ("GitHub token not configured on server"),
        { cachedData := some { lastUpdatedAt := ("t0"), registry := [] }, cacheTimestamp := 0 },
        false) ∧
    (GetResponse.configError ("GitHub token not configured on server") ≠
      .staleWithWarning { lastUpdatedAt := ("t0"), registry := [] }
        ("Data may be stale due to parsing error") ("Registry parsing timeout")) := by
  exact ⟨rfl, by decide⟩

/-- C6 (amended): with a previous snapshot and a configured credential,
a timeout or unexpected aggregation error yields the previous snapshot
annotated with a warning and the error detail, with the cache state
unchanged; a missing bearer credential instead yields a bare
configuration-error response without consulting the cache. -/
theorem claimC6 (st : CacheState) (d : CachedRegistryData) (now : Nat) (tk e : String)
    (hd : st.cachedData = some d)
    (hstale : ¬ (now - st.cacheTimestamp < cacheDurationMs)) :
    (registryGET st now (some tk) (.error e)).1 =
      .staleWithWarning d ("Data may be stale due to parsing error") e ∧
    (registryGET st now (some tk) (.error e)).2.1 = st ∧
    registryGET st now none (.error e) =
      (.configError ("GitHub token not configured on server"), st, false) := by
  refine ⟨?_, ?_, ?_⟩ <;>
    simp only [registryGET, hd, if_neg hstale, registryGETMiss]

theorem claimC6_witness :
    (registryGET
        { cachedData := some { lastUpdatedAt := ("s0"), registry := [] }, cacheTimestamp := 0 }
        cacheDurationMs (some ("tok")) (.error ("Registry parsing timeout"))).1 =
      .staleWithWarning { lastUpdatedAt := ("s0"), registry := [] }
        ("Data may be stale due to parsing error") ("Registry parsing timeout") ∧
    (registryGET
        { cachedData := some { lastUpdatedAt := ("s0"), registry := [] }, cacheTimestamp := 0 }
        cacheDurationMs (some ("tok")) (.error ("Registry parsing timeout"))).2.1 =
      { cachedData := some { lastUpdatedAt := ("s0"), registry := [] }, cacheTimestamp := 0 } ∧
    registryGET
        { cachedData := some { lastUpdatedAt := ("s0"), registry := [] }, cacheTimestamp := 0 }
        cacheDurationMs none (.error ("Registry parsing timeout")) =
      (.configError ("GitHub token not configured on server"),
        { cachedData := some { lastUpdatedAt := ("s0"), registry := [] }, cacheTimestamp := 0 },
        false) :=
  claimC6
    { cachedData := some { lastUpdatedAt := ("s0"), registry := [] }, cacheTimestamp := 0 }
    { lastUpdatedAt := ("s0"), registry := [] } cacheDurationMs ("tok")
    ("Registry parsing timeout") rfl (by decide)

/-- C7 counterexample: when the index-document fetch fails, the cycle is
not fatal — `parseRegistry` treats the index as empty and succeeds, and
the resulting empty snapshot replaces the previously cached one. -/
theorem claimC7_counterexample :
    parseRegistry none
        (fun _ _ => { branches := [], manifest := fun _ => none, tags := none, npm := none })
        ("t1") = .ok { lastUpdatedAt := ("t1"), registry := [] } ∧
    registryGET
        { cachedData := some { lastUpdatedAt := ("t0"), registry := [] }, cacheTimestamp := 0 }
        (cacheDurationMs + 1) (some ("tok"))
        (parseRegistry none
          (fun _ _ => { branches := [], manifest := fun _ => none, tags := none, npm := none })
          ("t1")) =
      (.success { lastUpdatedAt := ("t1"), registry := [] },
        { cachedData := some { lastUpdatedAt := ("t1"), registry := [] },
          cacheTimestamp := cacheDurationMs + 1 },
        true) ∧
    ({ lastUpdatedAt := ("t1"), registry := [] } : CachedRegistryData) ≠
      { lastUpdatedAt := ("t0"), registry := [] } := by
  exact ⟨rfl, rfl, by decide⟩

/-- C7 (amended): if the index-document fetch fails entirely, the
aggregation cycle still completes successfully with an empty registry, so
on a stale-cache read with a configured credential the new empty snapshot
replaces the cached one and the cycle is recorded as successful. -/
theorem claimC7 (oracle : String → String → RepoOracle) (nowIso : String)
    (st : CacheState) (d : CachedRegistryData) (now : Nat) (tk : String)
    (hd : st.cachedData = some d)
    (hstale : ¬ (now - st.cacheTimestamp < cacheDurationMs)) :
    parseRegistry none oracle nowIso = .ok { lastUpdatedAt := nowIso, registry := [] } ∧
    registryGET st now (some tk) (parseRegistry none oracle nowIso) =
      (.success { lastUpdatedAt := nowIso, registry := [] },
        { cachedData := some { lastUpdatedAt := nowIso, registry := [] },
          cacheTimestamp := now },
        true) := by
  have hpr : parseRegistry none oracle nowIso =
      .ok { lastUpdatedAt := nowIso, registry := [] } := rfl
  refine ⟨hpr, ?_⟩
  rw [hpr]
  simp only [registryGET, hd, if_neg hstale, registryGETMiss]

theorem claimC7_witness :
    parseRegistry none
        (fun _ _ => { branches := [], manifest := fun _ => none, tags := none, npm := none })
        ("t2") = .ok { lastUpdatedAt := ("t2"), registry := [] } ∧
    registryGET
        { cachedData := some { lastUpdatedAt := ("s0"), registry := [] }, cacheTimestamp := 5 }
        (cacheDurationMs + 5) (some ("tok"))
        (parseRegistry none
          (fun _ _ => { branches := [], manifest := fun _ => none, tags := none, npm := none })
          ("t2")) =
      (.success { lastUpdatedAt := ("t2"), registry := [] },
        { cachedData := some { lastUpdatedAt := ("t2"), registry := [] },
          cacheTimestamp := cacheDurationMs + 5 },
        true) :=
  claimC7
    (fun _ _ => { branches := [], manifest := fun _ => none, tags := none, npm := none })
    ("t2")
    { cachedData := some { lastUpdatedAt := ("s0"), registry := [] }, cacheTimestamp := 5 }
    { lastUpdatedAt := ("s0"), registry := [] } (cacheDurationMs + 5) ("tok")
    rfl (by decide)

end Eliza
